import Mathlib

/-!
Shallow embedding of `bcbio/isatab/parser.py` (the `StudyAssayParser` class and
its module-level helpers), together with theorems settling the behavioural
claims about the row-oriented study/assay file parser.

Python dictionaries (insertion ordered) are modelled as association lists with
`lookupA`/`updA`; Python sets accumulated per metadata key are modelled as
duplicate-free insertion-ordered lists; `None` results are modelled with
`Option`; an exception escaping a function is modelled as an `Option.none`
result of the whole function.
-/

set_option maxRecDepth 4000

/-- Python dict lookup `d.get(k)` / `d[k]` on an insertion-ordered dict
modelled as an association list. -/
def lookupA {α β : Type} [DecidableEq α] : List (α × β) → α → Option β
  | [], _ => none
  | (k', v) :: rest, k => if k' = k then some v else lookupA rest k

/-- Python dict store `d[k] = v`: replace in place when the key is present
(insertion order of an existing key is kept), append otherwise. -/
def updA {α β : Type} [DecidableEq α] : List (α × β) → α → β → List (α × β)
  | [], k, v => [(k, v)]
  | (k', v') :: rest, k, v =>
    if k' = k then (k, v) :: rest else (k', v') :: updA rest k v

/-- True when the char list `s` starts with `p`. -/
def charsStart : List Char → List Char → Bool
  | [], _ => true
  | _ :: _, [] => false
  | p :: ps, c :: cs => p == c && charsStart ps cs

/-- Python `s.startswith(pre)` for a single candidate string. -/
def str_startswith (s pre : String) : Bool := charsStart pre.data s.data

/-- Python `s.startswith(tuple_of_candidates)`. -/
def startswith_any (s : String) (pres : List String) : Bool :=
  pres.any (fun p => str_startswith s p)

/-- Models `StudyAssayParser._col_quals`. -/
def col_quals : List String :=
  ["Performer", "Date", "Unit", "Term Accession Number", "Term Source REF"]

/-- Models `self._col_types["attribute"]`. -/
def attribute_names : List String :=
  ["Characteristics", "Factor Type", "Comment", "Label", "Material Type",
   "Factor Value", "Assay Name", "Parameter Value[Trait Definition File]"]

/-- Models `self._col_types["node"]`. -/
def node_names : List String :=
  ["Sample Name", "Source Name", "Image File", "Raw Data File",
   "Derived Data File", "Acquisition Parameter Data File"]

/-- Models `self._col_types["node_assay"]`. -/
def node_assay_names : List String :=
  ["Extract Name", "Labeled Extract Name", "Assay Name",
   "Data Transformation Name", "Normalization Name"]

/-- Models `self._col_types["processing"]`. -/
def processing_names : List String := ["Protocol REF"]

/-- Models `StudyAssayParser._synonyms`. -/
def synonyms : List (String × String) :=
  [("Array Data File", "Raw Data File"),
   ("Free Induction Decay Data File", "Raw Data File"),
   ("Derived Array Data File", "Derived Data File"),
   ("Hybridization Assay Name", "Assay Name"),
   ("Derived Array Data Matrix File", "Derived Data File"),
   ("Raw Spectral Data File", "Raw Data File"),
   ("Derived Spectral Data File", "Derived Data File")]

/-- Models `StudyAssayParser._swap_synonyms`. -/
def swap_synonyms (header : List String) : List String :=
  header.map (fun h => (lookupA synonyms h).getD h)

/-- Category tags of `self._col_types`. -/
inductive CType where
  | attribute
  | node
  | node_assay
  | processing
deriving DecidableEq, Repr

/-- Models `out[-1].append(i)` of `_collapse_header`: append `i` to the last group.
`none` models the `IndexError` Python raises when there is no group yet. -/
def append_to_last : List (List Nat) → Nat → Option (List (List Nat))
  | [], _ => none
  | [g], i => some [g ++ [i]]
  | g :: g' :: rest, i => (append_to_last (g' :: rest) i).map (g :: ·)

/-- Loop body of `StudyAssayParser._collapse_header`, walking columns left to
right with `i` the index of the next column and `out` the groups so far. -/
def collapse_go (i : Nat) : List String → List (List Nat) → Option (List (List Nat))
  | [], out => some out
  | h :: rest, out =>
    if startswith_any h col_quals then
      match append_to_last out i with
      | none => none
      | some out2 => collapse_go (i + 1) rest out2
    else
      collapse_go (i + 1) rest (out ++ [[i]])

/-- Models `StudyAssayParser._collapse_header`: combine header columns into related
groups.  `none` models the uncaught `IndexError` raised when the very first
column already carries a qualifier prefix. -/
def collapse_header (header : List String) : Option (List (List Nat)) :=
  collapse_go 0 header []

/-- One group's classification in `StudyAssayParser._characterize_header`.
The source iterates the `_col_types` dict; the categories are checked in the
fixed order attribute, node, node_assay, processing (the only header string
occurring in two sets is "Assay Name", which no claim exercises). -/
def characterize_one (h : String) : Option CType :=
  if startswith_any h attribute_names then some CType.attribute
  else if startswith_any h node_names then some CType.node
  else if startswith_any h node_assay_names then some CType.node_assay
  else if startswith_any h processing_names then some CType.processing
  else none

/-- Models `StudyAssayParser._characterize_header`. -/
def characterize_header (header : List String) (hgroups : List (List Nat)) :
    List (Option CType) :=
  hgroups.map (fun g => characterize_one (header.getD (g.headD 0) ""))

/-- Models `StudyAssayParser._build_node_index`.  The trailing `else` of the source is
a no-op expression, so Python falls through and returns `None`, modelled as
`none`. -/
def build_node_index (ty name : String) : Option String :=
  if ty = "Source Name" then some ("source-" ++ name)
  else if ty = "Sample Name" then some ("sample-" ++ name)
  else if ty = "Extract Name" then some ("extract-" ++ name)
  else if ty = "Raw Data File" then some ("rawdatafile-" ++ name)
  else if ty = "Derived Data File" then some ("deriveddatafile-" ++ name)
  else if ty = "Acquisiton Parameter Data File" then
    some ("acquisitionparameterfile-" ++ name)
  else none

/-- Models `find_lt`: rightmost value less than `x`.  The source uses
`bisect.bisect_left` on the sorted list of node-group indices; on a sorted
list that equals the last element below `x`.  The `ValueError` raised when no
such element exists is modelled as `none`. -/
def find_lt (a : List Nat) (x : Nat) : Option Nat :=
  (a.filter (fun y => decide (y < x))).getLast?

/-- Models `find_gt`: leftmost value greater than `x` (via `bisect.bisect_right` in
the source); `ValueError` modelled as `none`. -/
def find_gt (a : List Nat) (x : Nat) : Option Nat :=
  a.find? (fun y => decide (x < y))

/-- Models `ProcessNodeRecord` (the `study_assay` back reference to the owning
record object is omitted: the parser never reads it). -/
structure ProcessNode where
  name : String
  ntype : String
  inputs : List (Option String)
  outputs : List (Option String)
deriving DecidableEq, Repr

/-- The per-processing-column constants of `_get_process_nodes`:
representative columns and headers for the input node group, output node
group and the processing group itself. -/
structure ColCfg where
  input_header : String
  output_header : String
  processing_header : String
  input_col : Nat
  output_col : Nat
  processing_col : Nat
deriving DecidableEq, Repr

/-- The dict/counter state threaded through the row loop of
`_get_process_nodes`, without the `line_number`/`max_number` counters. -/
structure PlainState where
  processNodes : List (String × ProcessNode)
  inputMap : List (Option String × String)
  outputMap : List (Option String × String)
  processNumber : Nat
deriving DecidableEq, Repr

/-- The full row-loop state of `_get_process_nodes`, including the
`line_number` and `max_number` counters of the stall guard. -/
structure ProcState where
  processNodes : List (String × ProcessNode)
  inputMap : List (Option String × String)
  outputMap : List (Option String × String)
  processNumber : Nat
  lineNumber : Nat
  maxNumber : Nat
deriving DecidableEq, Repr

/-- Forget the stall-guard counters. -/
def ProcState.toPlain (st : ProcState) : PlainState :=
  ⟨st.processNodes, st.inputMap, st.outputMap, st.processNumber⟩

/-- Lines 273-281 of the source: reuse the process name recorded for the
input identity, else for the output identity, else mint
`processing cell ++ str(process_number)`. -/
def pick_name (cfg : ColCfg) (s : PlainState) (line : List String)
    (inputIdx outputIdx : Option String) : String :=
  match lookupA s.inputMap inputIdx with
  | some n => n
  | none =>
    match lookupA s.outputMap outputIdx with
    | some n => n
    | none => line.getD cfg.processing_col "" ++ toString s.processNumber

/-- Lines 282-287: fetch the process node for the name, or create a fresh one
and advance the process counter. -/
def pick_node (s : PlainState) (uniqueName ntype : String) : ProcessNode × Nat :=
  match lookupA s.processNodes uniqueName with
  | some pn => (pn, s.processNumber)
  | none => (⟨uniqueName, ntype, [], []⟩, s.processNumber + 1)

/-- Lines 289-292: append the input/output identity when not already present. -/
def grow_node (nd : ProcessNode) (inputIdx outputIdx : Option String) : ProcessNode :=
  let nd := if inputIdx ∈ nd.inputs then nd else { nd with inputs := nd.inputs ++ [inputIdx] }
  if outputIdx ∈ nd.outputs then nd else { nd with outputs := nd.outputs ++ [outputIdx] }

/-- The body of the row loop of `_get_process_nodes` (lines 264-298) minus the
stall-guard counters.  Returns the updated dict state and the process node the
row touched (`none` when the row had empty input and output cells and was
skipped by the `continue`). -/
def proc_core (cfg : ColCfg) (s : PlainState) (line : List String) :
    PlainState × Option ProcessNode :=
  let inputName := line.getD cfg.input_col ""
  let inputIdx := build_node_index cfg.input_header inputName
  let outputName := line.getD cfg.output_col ""
  let outputIdx := build_node_index cfg.output_header outputName
  if inputName = "" ∧ outputName = "" then (s, none)
  else
    let uniqueName := pick_name cfg s line inputIdx outputIdx
    let nk := pick_node s uniqueName cfg.processing_header
    let nd := grow_node nk.1 inputIdx outputIdx
    (⟨updA s.processNodes uniqueName nd,
      updA s.inputMap inputIdx uniqueName,
      updA s.outputMap outputIdx uniqueName,
      nk.2⟩, some nd)

/-- Row step without the stall guard: process every row once, in order. -/
def plain_step (cfg : ColCfg) (s : PlainState) (line : List String) : PlainState :=
  (proc_core cfg s line).1

/-- Row step exactly as in the source, stall guard included: a row is handled
only when `line_number >= max_number`; otherwise only the line counter is
advanced.  A handled row with both cells empty hits `continue`, leaving even
the counters untouched; a handled non-empty row advances `line_number` and
re-records `max_number` as the max of the touched node's list lengths. -/
def proc_step (cfg : ColCfg) (st : ProcState) (line : List String) : ProcState :=
  if st.maxNumber ≤ st.lineNumber then
    match proc_core cfg st.toPlain line with
    | (_, none) => st
    | (s', some nd) =>
      ⟨s'.processNodes, s'.inputMap, s'.outputMap, s'.processNumber,
       st.lineNumber + 1, max nd.inputs.length nd.outputs.length⟩
  else
    { st with lineNumber := st.lineNumber + 1 }

/-- The row loop of `_get_process_nodes` for one processing column. -/
def scan_rows (cfg : ColCfg) (rows : List (List String)) (st : ProcState) : ProcState :=
  rows.foldl (proc_step cfg) st

/-- The same row loop without the stall guard. -/
def scan_rows_plain (cfg : ColCfg) (rows : List (List String)) (s : PlainState) : PlainState :=
  rows.foldl (plain_step cfg) s

/-- Models `[i for i, x in enumerate(htypes) if x == "processing"]`. -/
def processing_indices_of (htypes : List (Option CType)) : List Nat :=
  (htypes.enum.filter (fun it => decide (it.2 = some CType.processing))).map (·.1)

/-- Models `[i for i, x in enumerate(htypes) if x == "node" or x == "node_assay"]`. -/
def node_indices_of (htypes : List (Option CType)) : List Nat :=
  (htypes.enum.filter
    (fun it => decide (it.2 = some CType.node ∨ it.2 = some CType.node_assay))).map (·.1)

/-- Models `headers[hgroups[i][0]]`'s column index. -/
def rep_col (hgroups : List (List Nat)) (i : Nat) : Nat :=
  (hgroups.getD i []).headD 0

/-- Fresh per-column row-loop state (`process_nodes` is the dict shared across
processing columns, the maps and counters are re-initialized per column). -/
def init_state (acc : List (String × ProcessNode)) : ProcState :=
  ⟨acc, [], [], 1, 0, 0⟩

/-- The `for processing_index in processing_indices` loop of
`_get_process_nodes`.  The CSV reader is a stream: a completed row loop
exhausts it, so the recursive call continues with no remaining rows.  A
`ValueError` from `find_lt`/`find_gt` hits the `break`, ending the loop with
the accumulated dict. -/
def scan_columns (headers : List String) (hgroups : List (List Nat)) (nis : List Nat) :
    List Nat → List (List String) → List (String × ProcessNode) →
    List (String × ProcessNode)
  | [], _, acc => acc
  | p :: rest, rows, acc =>
    match find_lt nis p, find_gt nis p with
    | some ii, some oi =>
      let cfg : ColCfg :=
        { input_header := headers.getD (rep_col hgroups ii) ""
          output_header := headers.getD (rep_col hgroups oi) ""
          processing_header := headers.getD (rep_col hgroups p) ""
          input_col := rep_col hgroups ii
          output_col := rep_col hgroups oi
          processing_col := rep_col hgroups p }
      let fin := scan_rows cfg rows (init_state acc)
      scan_columns headers hgroups nis rest [] fin.processNodes
    | _, _ => acc

/-- Stall-guard-free variant of the processing-column loop. -/
def scan_columns_plain (headers : List String) (hgroups : List (List Nat)) (nis : List Nat) :
    List Nat → List (List String) → List (String × ProcessNode) →
    List (String × ProcessNode)
  | [], _, acc => acc
  | p :: rest, rows, acc =>
    match find_lt nis p, find_gt nis p with
    | some ii, some oi =>
      let cfg : ColCfg :=
        { input_header := headers.getD (rep_col hgroups ii) ""
          output_header := headers.getD (rep_col hgroups oi) ""
          processing_header := headers.getD (rep_col hgroups p) ""
          input_col := rep_col hgroups ii
          output_col := rep_col hgroups oi
          processing_col := rep_col hgroups p }
      let fin := scan_rows_plain cfg rows ⟨acc, [], [], 1⟩
      scan_columns_plain headers hgroups nis rest [] fin.processNodes
    | _, _ => acc

/-- Models `StudyAssayParser._get_process_nodes` on a file with header row
`headerRow` and data rows `rows`.  The result is the final value of
`study.process_nodes`: the record's initial `{}` when the first processing
column already fails neighbor search (or there is no processing column at
all), otherwise the shared dict after the last completed column.  `none`
models an exception escaping (only possible from `_collapse_header`). -/
def get_process_nodes (headerRow : List String) (rows : List (List String)) :
    Option (List (String × ProcessNode)) :=
  let headers := swap_synonyms headerRow
  (collapse_header headers).map (fun hgroups =>
    let htypes := characterize_header headers hgroups
    scan_columns headers hgroups (node_indices_of htypes)
      (processing_indices_of htypes) rows [])

/-- Models `_get_process_nodes` with the stall guard removed: every data row of a
column's scan is processed once, in order. -/
def get_process_nodes_plain (headerRow : List String) (rows : List (List String)) :
    Option (List (String × ProcessNode)) :=
  let headers := swap_synonyms headerRow
  (collapse_header headers).map (fun hgroups =>
    let htypes := characterize_header headers hgroups
    scan_columns_plain headers hgroups (node_indices_of htypes)
      (processing_indices_of htypes) rows [])

/-- Drop every occurrence of the char `c`: Python `s.replace("]", "")` for the
single-char pattern used by `_clean_header`. -/
def remove_char (c : Char) (s : List Char) : List Char :=
  s.filter (fun d => d != c)

/-- The chars after the last occurrence of `c`, the whole list when `c` is
absent: Python `s.split(c)[-1]` for a single-char separator. -/
def after_last (c : Char) (s : List Char) : List Char :=
  (s.reverse.takeWhile (fun d => d != c)).reverse

/-- Models `StudyAssayParser._clean_header`.  On a header that reduces to the empty
string the source's `header[0]` would raise `IndexError`; no input of the
claims reaches that case and the empty string is passed through here. -/
def clean_header (header : String) : String :=
  let cs := if header.data.any (fun d => d == '[')
            then after_last '[' (remove_char ']' header.data)
            else header.data
  match cs with
  | [] => ⟨[]⟩
  | c :: _ => if c.isDigit then ⟨"isa_".data ++ cs⟩ else ⟨cs⟩

/-- Loop of the substitution `pat.sub("_", s)` for `pat = re.compile("[\W]+")`:
each maximal run of non-word characters becomes one `_`; `prevNW` records
whether the current run has already emitted its `_`. -/
def squash_go : List Char → Bool → List Char
  | [], _ => []
  | c :: cs, prevNW =>
    if c.isAlphanum || c == '_' then c :: squash_go cs false
    else if prevNW then squash_go cs true
    else '_' :: squash_go cs true

/-- Models `re.sub("[\W]+", "_", s)` as used by `_collapse_attributes`. -/
def squash_nonword (s : String) : String := ⟨squash_go s.data false⟩

/-- A value stored in a node's metadata sets: either a bare cell string, or
the `Attrs` named tuple of `_collapse_attributes` (field names plus values). -/
inductive MetaValue where
  | str : String → MetaValue
  | attrs : List String → List String → MetaValue
deriving DecidableEq, Repr

/-- A node's `metadata`: `collections.defaultdict(set)`, each set modelled as
a duplicate-free insertion-ordered list. -/
abbrev Meta := List (String × List MetaValue)

/-- Models `out[key].add(val)` on the defaultdict-of-sets. -/
def add_val (m : Meta) (k : String) (v : MetaValue) : Meta :=
  match lookupA m k with
  | some s => updA m k (if v ∈ s then s else s ++ [v])
  | none => m ++ [(k, [v])]

/-- Models `StudyAssayParser._collapse_attributes`: one named tuple from a group's
columns, field names from the cleaned headers with non-word runs replaced by
`_`, values the raw cells. -/
def collapse_attributes (line header : List String) (indexes : List Nat) : MetaValue :=
  MetaValue.attrs
    (indexes.map (fun i => squash_nonword (clean_header (header.getD i ""))))
    (indexes.map (fun i => line.getD i ""))

/-- Models `StudyAssayParser._line_by_type`.  Note line 375 of the source: the key is
the raw `header[col]` — the `_clean_header` call is commented out. -/
def line_by_type (line header : List String) (hgroups : List (List Nat))
    (htypes : List (Option CType)) (out : Meta) (wantType : CType)
    (collapse : Bool) : Meta :=
  (htypes.enum.filter (fun it => decide (it.2 = some wantType))).foldl
    (fun out it =>
      let g := hgroups.getD it.1 []
      let col := g.headD 0
      let key := header.getD col ""
      let v := if collapse then collapse_attributes line header g
               else MetaValue.str (line.getD col "")
      add_val out key v)
    out

/-- Models `StudyAssayParser._line_keyvals` starting from the fresh defaultdict. -/
def line_keyvals (line header : List String) (hgroups : List (List Nat))
    (htypes : List (Option CType)) : Meta :=
  let out := line_by_type line header hgroups htypes [] CType.node false
  let out := line_by_type line header hgroups htypes out CType.attribute true
  line_by_type line header hgroups htypes out CType.processing true

/-- Models `NodeRecord` (after `_finalize_metadata`, which only converts each
metadata set back to a list and is the identity on this model). -/
structure NodeRecord where
  name : String
  ntype : String
  metadata : Meta
deriving DecidableEq, Repr

/-- Body of the row loop of `_parse_study` for one anchor column: skip cell
values that occur in the (synonym-swapped) header — the stream was seeked back
to the start, so the raw header row comes around again — skip empty cells, and
create a node only when its identity key is not yet present. -/
def scan_line (header : List String) (hgroups : List (List Nat))
    (htypes : List (Option CType)) (nodeType : String) (nameIndex : Nat)
    (nodes : List (Option String × NodeRecord)) (line : List String) :
    List (Option String × NodeRecord) :=
  let name := line.getD nameIndex ""
  let nodeIndex := build_node_index nodeType name
  if name ∈ header then nodes
  else if name = "" then nodes
  else
    match lookupA nodes nodeIndex with
    | some _ => nodes
    | none =>
      nodes ++ [(nodeIndex,
        ⟨name, nodeType, line_keyvals line header hgroups htypes⟩)]

/-- The full-file scan of `_parse_study` for one anchor column present in the
header (after `in_handle.seek(0, 0)` the lines start with the raw header row). -/
def scan_anchor (header : List String) (hgroups : List (List Nat))
    (htypes : List (Option CType)) (nodeType : String) (nameIndex : Nat)
    (lines : List (List String)) (nodes : List (Option String × NodeRecord)) :
    List (Option String × NodeRecord) :=
  lines.foldl (scan_line header hgroups htypes nodeType nameIndex) nodes

/-- Models `StudyAssayParser._parse_study` on a present file with header row
`headerRow` and data rows `rows`.  Anchor columns absent from the header are
skipped (`ValueError` from `header.index` is caught).  `none` models an
exception escaping from `_collapse_header`. -/
def parse_study (headerRow : List String) (rows : List (List String))
    (nodeTypes : List String) : Option (List (Option String × NodeRecord)) :=
  let header := swap_synonyms headerRow
  (collapse_header header).map (fun hgroups =>
    let htypes := characterize_header header hgroups
    nodeTypes.foldl (fun nodes nodeType =>
      match header.findIdx? (fun h => h = nodeType) with
      | none => nodes
      | some nameIndex =>
        scan_anchor header hgroups htypes nodeType nameIndex
          (headerRow :: rows) nodes)
      [])

/-- Anchor columns `parse` passes for a study file. -/
def study_anchors : List String :=
  ["Source Name", "Sample Name", "Comment[ENA_SAMPLE]"]

/-- Anchor columns `parse` passes for an assay file. -/
def assay_anchors : List String :=
  ["Sample Name", "Extract Name", "Raw Data File", "Derived Data File",
   "Image File", "Acquisition Parameter Data File",
   "Free Induction Decay Data File"]

/-- The directory of row files: file name to (header row, data rows). -/
abbrev FileSys := List (String × (List String × List (List String)))

/-- File lookup; `none` is a missing file. -/
def read_file (fs : FileSys) (name : String) :
    Option (List String × List (List String)) :=
  lookupA fs name

/-- Per-element fallible map (the Python `for` loops building result lists;
an exception from any element aborts the whole `parse`). -/
def map_opt {α β : Type} (f : α → Option β) : List α → Option (List β)
  | [] => some []
  | a :: l =>
    match f a, map_opt f l with
    | some b, some l' => some (b :: l')
    | _, _ => none

/-- A study as `parse` consumes it: its row file name (`Study File Name`) and
its declared assay file names (`Study Assay File Name` entries). -/
structure StudyIn where
  fileName : String
  assayFiles : List String
deriving DecidableEq, Repr

/-- Models `ISATabAssayRecord` after `parse`: `nodes` is `None` when the assay file
was missing, and `process_nodes` keeps its initial `{}` in that case. -/
structure AssayOut where
  fileName : String
  nodes : Option (List (Option String × NodeRecord))
  processNodes : List (String × ProcessNode)
deriving DecidableEq, Repr

/-- A study record after `parse`. -/
structure StudyOut where
  fileName : String
  nodes : List (Option String × NodeRecord)
  assays : List AssayOut
  processNodes : List (String × ProcessNode)
deriving DecidableEq, Repr

/-- One iteration of the assay loop of `StudyAssayParser.parse` (lines
215-221): the assay record is appended to `final_assays` unconditionally. -/
def parse_assay (fs : FileSys) (fname : String) : Option AssayOut :=
  match read_file fs fname with
  | none => some ⟨fname, none, []⟩
  | some (h, rows) =>
    match parse_study h rows assay_anchors, get_process_nodes h rows with
    | some nodes, some pn => some ⟨fname, some nodes, pn⟩
    | _, _ => none

/-- One iteration of the study loop of `StudyAssayParser.parse` (lines
209-226).  Result `some none`: the study is dropped (missing file or empty
node dict — both falsy in `if source_data:`); `some (some out)`: the study is
kept; `none`: an exception escaped. -/
def parse_one_study (fs : FileSys) (st : StudyIn) : Option (Option StudyOut) :=
  match read_file fs st.fileName with
  | none => some none
  | some (h, rows) =>
    match parse_study h rows study_anchors with
    | none => none
    | some sourceData =>
      if sourceData = [] then some none
      else
        match map_opt (parse_assay fs) st.assayFiles, get_process_nodes h rows with
        | some assays, some pn =>
          some (some ⟨st.fileName, sourceData, assays, pn⟩)
        | _, _ => none

/-- Models `StudyAssayParser.parse`: keep exactly the studies whose own row file
yields a non-empty node dict. -/
def parse_record (fs : FileSys) (studies : List StudyIn) : Option (List StudyOut) :=
  (map_opt (parse_one_study fs) studies).map (fun outs => outs.filterMap id)

/-! ### Association-list lemmas -/

theorem lookupA_mem {α β : Type} [DecidableEq α] :
    ∀ {l : List (α × β)} {k : α} {v : β}, lookupA l k = some v → (k, v) ∈ l := by
  intro l
  induction l with
  | nil => intro k v h; simp [lookupA] at h
  | cons p rest ih =>
    intro k v h
    obtain ⟨k', v'⟩ := p
    by_cases hk : k' = k
    · subst hk
      simp [lookupA] at h
      subst h
      exact List.mem_cons_self _ _
    · simp [lookupA, hk] at h
      exact List.mem_cons_of_mem _ (ih h)

theorem updA_mem {α β : Type} [DecidableEq α] :
    ∀ {l : List (α × β)} {k : α} {v : β} {x : α × β},
      x ∈ updA l k v → x = (k, v) ∨ x ∈ l := by
  intro l
  induction l with
  | nil => intro k v x h; simp [updA] at h; exact Or.inl h
  | cons p rest ih =>
    intro k v x h
    obtain ⟨k', v'⟩ := p
    by_cases hk : k' = k
    · subst hk
      simp [updA] at h
      rcases h with h | h
      · exact Or.inl h
      · exact Or.inr (List.mem_cons_of_mem _ h)
    · simp [updA, hk] at h
      rcases h with h | h
      · exact Or.inr (by simp [h])
      · rcases ih h with h' | h'
        · exact Or.inl h'
        · exact Or.inr (List.mem_cons_of_mem _ h')

theorem lookupA_append_left {α β : Type} [DecidableEq α] :
    ∀ {l₁ l₂ : List (α × β)} {k : α},
      (lookupA l₁ k).isSome → lookupA (l₁ ++ l₂) k = lookupA l₁ k := by
  intro l₁
  induction l₁ with
  | nil => intro l₂ k h; simp [lookupA] at h
  | cons p rest ih =>
    intro l₂ k h
    obtain ⟨k', v'⟩ := p
    by_cases hk : k' = k
    · simp [lookupA, hk]
    · simp only [List.cons_append, lookupA, if_neg hk] at h ⊢
      exact ih h

theorem map_opt_length {α β : Type} (f : α → Option β) :
    ∀ {l : List α} {l' : List β}, map_opt f l = some l' → l'.length = l.length := by
  intro l
  induction l with
  | nil => intro l' h; simp [map_opt] at h; subst h; rfl
  | cons a t ih =>
    intro l' h
    simp only [map_opt] at h
    cases hfa : f a with
    | none => rw [hfa] at h; simp at h
    | some b =>
      rw [hfa] at h
      cases hmt : map_opt f t with
      | none => rw [hmt] at h; simp at h
      | some t' =>
        rw [hmt] at h
        simp at h
        subst h
        simp [ih hmt]

/-! ### Claim theorems -/

/-- C1.  With one processing column strictly between a node-typed input column
and a node-typed output column, the rows (S1,P1,D1), (S1,P1,D2), (S2,P1,D2)
yield exactly one process node, named from the processing cell `P1` plus the
counter (`"P11"`), with inputs exactly the identities of S1 and S2 in
insertion order without duplicates and outputs exactly the identities of D1
and D2: row 2 reuses the name recorded for its input identity, row 3 the name
recorded for its output identity, and only row 1 mints a new name. -/
theorem c1_process_fan_in_out :
    get_process_nodes ["Sample Name", "Protocol REF", "Raw Data File"]
      [["S1", "P1", "D1"], ["S1", "P1", "D2"], ["S2", "P1", "D2"]] =
    some [("P11",
      ⟨"P11", "Protocol REF",
       [some "sample-S1", some "sample-S2"],
       [some "rawdatafile-D1", some "rawdatafile-D2"]⟩)] := by
  decide

/-- C2, counterexample.  For headers `Factor Value[Age]`, `Unit` and the row
`5`, `years`, the single folded attribute is keyed by the raw group header
`"Factor Value[Age]"`, not by the cleaned name `"Age"` (the cleaning call on
the key is commented out in the source): the node's metadata has no `"Age"`
key even though `clean_header` would produce it. -/
theorem c2_counterexample :
    parse_study ["Sample Name", "Factor Value[Age]", "Unit"]
      [["S1", "5", "years"]] study_anchors =
      some [(some "sample-S1",
        ⟨"S1", "Sample Name",
         [("Sample Name", [MetaValue.str "S1"]),
          ("Factor Value[Age]",
           [MetaValue.attrs ["Age", "Unit"] ["5", "years"]])]⟩)] ∧
    lookupA [("Sample Name", [MetaValue.str "S1"]),
             ("Factor Value[Age]",
              [MetaValue.attrs ["Age", "Unit"] ["5", "years"]])] "Age" = none ∧
    clean_header "Factor Value[Age]" = "Age" := by
  refine ⟨by decide, by decide, by decide⟩

/-- C2, amended.  For headers `Factor Value[Age]`, `Unit` and the row `5`,
`years`, the node carries exactly one attribute for the group, keyed by the
raw representative header `"Factor Value[Age]"`; its single structured value
holds both `5` and `years` (with field names from the cleaned headers), and no
separate `Unit` attribute exists. -/
theorem c2_qualifier_folding :
    parse_study ["Sample Name", "Factor Value[Age]", "Unit"]
      [["S1", "5", "years"]] study_anchors =
      some [(some "sample-S1",
        ⟨"S1", "Sample Name",
         [("Sample Name", [MetaValue.str "S1"]),
          ("Factor Value[Age]",
           [MetaValue.attrs ["Age", "Unit"] ["5", "years"]])]⟩)] ∧
    lookupA [("Sample Name", [MetaValue.str "S1"]),
             ("Factor Value[Age]",
              [MetaValue.attrs ["Age", "Unit"] ["5", "years"]])]
      "Factor Value[Age]" =
      some [MetaValue.attrs ["Age", "Unit"] ["5", "years"]] ∧
    lookupA [("Sample Name", [MetaValue.str "S1"]),
             ("Factor Value[Age]",
              [MetaValue.attrs ["Age", "Unit"] ["5", "years"]])] "Unit" = none := by
  refine ⟨by decide, by decide, by decide⟩

/-- C3, counterexample.  A study whose own file yields a node, with one
declared assay whose file is missing: the assay is NOT dropped — it stays in
the final assays list with `nodes = None` and an empty process map. -/
theorem c3_counterexample :
    parse_record [("s.txt", (["Sample Name"], [["S1"]]))]
      [⟨"s.txt", ["a.txt"]⟩] =
      some [⟨"s.txt",
        [(some "sample-S1",
          ⟨"S1", "Sample Name", [("Sample Name", [MetaValue.str "S1"])]⟩)],
        [⟨"a.txt", none, []⟩], []⟩] ∧
    read_file [("s.txt", (["Sample Name"], [["S1"]]))] "a.txt" = none := by
  refine ⟨by decide, by decide⟩

/-- C3, amended.  Declared assays are never dropped: every study kept in the
output carries exactly one assay record per declared assay file, whether or
not that file exists or yields nodes.  Only studies are dropped, namely those
whose own row file is missing (second conjunct) or yields no entity nodes. -/
theorem c3_assays_kept :
    (∀ (fs : FileSys) (st : StudyIn) (out : StudyOut),
      parse_one_study fs st = some (some out) →
      out.assays.length = st.assayFiles.length) ∧
    (∀ (fs : FileSys) (st : StudyIn),
      read_file fs st.fileName = none → parse_one_study fs st = some none) := by
  constructor
  · intro fs st out h
    unfold parse_one_study at h
    split at h
    · simp at h
    · split at h
      · simp at h
      · split at h
        · simp at h
        · split at h
          · rename_i assays pn hmo hpn
            simp only [Option.some.injEq] at h
            rw [← h]
            exact map_opt_length _ hmo
          · simp at h
  · intro fs st h
    unfold parse_one_study
    rw [h]

/-- Witness for `c3_assays_kept`. -/
theorem c3_assays_kept_witness :
    (⟨"s.txt",
      [(some "sample-S1",
        ⟨"S1", "Sample Name", [("Sample Name", [MetaValue.str "S1"])]⟩)],
      [⟨"a.txt", none, []⟩], []⟩ : StudyOut).assays.length =
    (⟨"s.txt", ["a.txt"]⟩ : StudyIn).assayFiles.length :=
  c3_assays_kept.1 [("s.txt", (["Sample Name"], [["S1"]]))] ⟨"s.txt", ["a.txt"]⟩
    ⟨"s.txt",
      [(some "sample-S1",
        ⟨"S1", "Sample Name", [("Sample Name", [MetaValue.str "S1"])]⟩)],
      [⟨"a.txt", none, []⟩], []⟩ (by decide)

/-- C4, counterexample.  The identity key is not `type ++ "-" ++ name`: for
type `Sample Name` and name `X1` the code produces `"sample-X1"`, not
`"Sample Name-X1"`. -/
theorem c4_counterexample :
    build_node_index "Sample Name" "X1" = some "sample-X1" ∧
    build_node_index "Sample Name" "X1" ≠ some "Sample Name-X1" := by
  refine ⟨by decide, by decide⟩

/-- C4, amended.  The identity key is a fixed lowercase tag determined by the
anchor type, then `"-"`, then the cell value — `source-`, `sample-`,
`extract-`, `rawdatafile-`, `deriveddatafile-`, `acquisitionparameterfile-`
for the six recognized type strings (the last under the misspelling
`"Acquisiton Parameter Data File"`); the tags are pairwise distinct, so two
entities of different recognized types sharing one name string get distinct
keys, as the `Source Name`/`Sample Name` example shows. -/
theorem c4_key_scheme :
    (∀ name : String,
      build_node_index "Source Name" name = some ("source-" ++ name) ∧
      build_node_index "Sample Name" name = some ("sample-" ++ name) ∧
      build_node_index "Extract Name" name = some ("extract-" ++ name) ∧
      build_node_index "Raw Data File" name = some ("rawdatafile-" ++ name) ∧
      build_node_index "Derived Data File" name =
        some ("deriveddatafile-" ++ name) ∧
      build_node_index "Acquisiton Parameter Data File" name =
        some ("acquisitionparameterfile-" ++ name)) ∧
    ([("source-X1" : String), "sample-X1", "extract-X1", "rawdatafile-X1",
      "deriveddatafile-X1", "acquisitionparameterfile-X1"].Pairwise (· ≠ ·)) ∧
    parse_study ["Source Name", "Sample Name"] [["X1", "X1"]] study_anchors =
      some [(some "source-X1",
        ⟨"X1", "Source Name",
         [("Source Name", [MetaValue.str "X1"]),
          ("Sample Name", [MetaValue.str "X1"])]⟩),
       (some "sample-X1",
        ⟨"X1", "Sample Name",
         [("Source Name", [MetaValue.str "X1"]),
          ("Sample Name", [MetaValue.str "X1"])]⟩)] := by
  refine ⟨fun name => ⟨rfl, rfl, rfl, rfl, rfl, rfl⟩, by decide, by decide⟩

/-- C9.  `_build_node_index` yields a key only for the six hard-coded type
strings (including the misspelling `"Acquisiton Parameter Data File"`); every
other type falls through to `None` — in particular the anchor types
`Image File`, the correctly spelled `Acquisition Parameter Data File`,
`Free Induction Decay Data File` and `Comment[ENA_SAMPLE]` that `parse`
passes.  Consequently all entities read under such an anchor collapse to the
single key `None` (only the first row's node survives), and process-graph
input/output identities for such columns are `None` as well. -/
theorem c9_node_index_fallthrough :
    (∀ (ty name : String),
      ty ∉ ["Source Name", "Sample Name", "Extract Name", "Raw Data File",
            "Derived Data File", "Acquisiton Parameter Data File"] →
      build_node_index ty name = none) ∧
    (build_node_index "Image File" "x" = none ∧
     build_node_index "Acquisition Parameter Data File" "x" = none ∧
     build_node_index "Free Induction Decay Data File" "x" = none ∧
     build_node_index "Comment[ENA_SAMPLE]" "x" = none) ∧
    parse_study ["Image File"] [["f1"], ["f2"]] assay_anchors =
      some [(none, ⟨"f1", "Image File", [("Image File", [MetaValue.str "f1"])]⟩)] ∧
    get_process_nodes ["Image File", "Protocol REF", "Image File"]
      [["a", "P", "b"]] =
      some [("P1", ⟨"P1", "Protocol REF", [none], [none]⟩)] := by
  refine ⟨?_, by decide, by decide, by decide⟩
  intro ty name h
  simp only [List.mem_cons, not_or] at h
  obtain ⟨h1, h2, h3, h4, h5, h6, -⟩ := h
  simp [build_node_index, h1, h2, h3, h4, h5, h6]

/-- Witness for `c9_node_index_fallthrough`. -/
theorem c9_node_index_fallthrough_witness :
    build_node_index "Image File" "f1" = none :=
  c9_node_index_fallthrough.1 "Image File" "f1" (by decide)

/-- A `scan_line` step never changes the entry of an identity that is already
present: the row either hits a skip guard, re-finds an existing node (and does
nothing), or appends a node under a key that was absent. -/
theorem scan_line_keeps {header : List String} {hgroups : List (List Nat)}
    {htypes : List (Option CType)} {nodeType : String} {nameIndex : Nat}
    {nodes : List (Option String × NodeRecord)} {line : List String}
    {k : Option String} (hk : (lookupA nodes k).isSome) :
    lookupA (scan_line header hgroups htypes nodeType nameIndex nodes line) k =
      lookupA nodes k := by
  simp only [scan_line]
  split
  · rfl
  · split
    · rfl
    · split
      · rfl
      · exact lookupA_append_left hk

/-- The full-file scan for one anchor never changes an identity already
present when the scan starts. -/
theorem scan_anchor_keeps (header : List String) (hgroups : List (List Nat))
    (htypes : List (Option CType)) (nodeType : String) (nameIndex : Nat) :
    ∀ (lines : List (List String)) (nodes : List (Option String × NodeRecord))
      (k : Option String), (lookupA nodes k).isSome →
      lookupA (scan_anchor header hgroups htypes nodeType nameIndex lines nodes) k =
        lookupA nodes k := by
  intro lines
  induction lines with
  | nil => intro nodes k _; rfl
  | cons l t ih =>
    intro nodes k hk
    have h1 := @scan_line_keeps header hgroups htypes nodeType nameIndex nodes l k hk
    have h2 : (lookupA (scan_line header hgroups htypes nodeType nameIndex nodes l) k).isSome := by
      rw [h1]; exact hk
    calc lookupA (scan_anchor header hgroups htypes nodeType nameIndex (l :: t) nodes) k
        = lookupA (scan_anchor header hgroups htypes nodeType nameIndex t
            (scan_line header hgroups htypes nodeType nameIndex nodes l)) k := rfl
      _ = lookupA (scan_line header hgroups htypes nodeType nameIndex nodes l) k := ih _ _ h2
      _ = lookupA nodes k := h1

/-- C5.  First-seen wins: once an identity key is present in the node dict,
no later row of any anchor scan changes its entry (first conjunct); in
particular rows 1 and 2 sharing the same `Sample Name` with Characteristics
`A` resp. `B` yield exactly one node whose metadata carries only `A` (second
conjunct). -/
theorem c5_first_seen_wins :
    (∀ (header : List String) (hgroups : List (List Nat))
       (htypes : List (Option CType)) (nodeType : String) (nameIndex : Nat)
       (lines : List (List String)) (nodes : List (Option String × NodeRecord))
       (k : Option String),
       (lookupA nodes k).isSome →
       lookupA (scan_anchor header hgroups htypes nodeType nameIndex lines nodes) k =
         lookupA nodes k) ∧
    parse_study ["Sample Name", "Characteristics[trait]"]
      [["S1", "A"], ["S1", "B"]] study_anchors =
      some [(some "sample-S1",
        ⟨"S1", "Sample Name",
         [("Sample Name", [MetaValue.str "S1"]),
          ("Characteristics[trait]", [MetaValue.attrs ["trait"] ["A"]])]⟩)] :=
  ⟨fun header hgroups htypes nodeType nameIndex lines nodes k hk =>
    scan_anchor_keeps header hgroups htypes nodeType nameIndex lines nodes k hk,
   by decide⟩

/-- Witness for `c5_first_seen_wins`: a later row mentioning `S1` again leaves
the already-stored node for key `sample-S1` untouched. -/
theorem c5_first_seen_wins_witness :
    lookupA (scan_anchor ["Sample Name"] [[0]] [some CType.node] "Sample Name" 0
        [["S1"]] [(some "sample-S1", ⟨"S1", "Sample Name", []⟩)])
      (some "sample-S1") =
    lookupA [(some "sample-S1", ⟨"S1", "Sample Name", []⟩)] (some "sample-S1") :=
  c5_first_seen_wins.1 ["Sample Name"] [[0]] [some CType.node] "Sample Name" 0
    [["S1"]] [(some "sample-S1", ⟨"S1", "Sample Name", []⟩)] (some "sample-S1")
    (by decide)

/-- C6, counterexample.  In a header with two processing columns where only
the second lacks a node-typed neighbor (here: nothing to its right), graph
construction is indeed aborted at that column, but the process-node mapping is
NOT left empty: it keeps the node contributed by the first processing column. -/
theorem c6_counterexample :
    collapse_header (swap_synonyms
      ["Sample Name", "Protocol REF", "Raw Data File", "Protocol REF"]) =
      some [[0], [1], [2], [3]] ∧
    processing_indices_of (characterize_header
      (swap_synonyms ["Sample Name", "Protocol REF", "Raw Data File", "Protocol REF"])
      [[0], [1], [2], [3]]) = [1, 3] ∧
    find_gt (node_indices_of (characterize_header
      (swap_synonyms ["Sample Name", "Protocol REF", "Raw Data File", "Protocol REF"])
      [[0], [1], [2], [3]])) 3 = none ∧
    get_process_nodes ["Sample Name", "Protocol REF", "Raw Data File", "Protocol REF"]
      [["S1", "P1", "D1", "P2"]] =
      some [("P11", ⟨"P11", "Protocol REF",
        [some "sample-S1"], [some "rawdatafile-D1"]⟩)] := by
  refine ⟨by decide, by decide, by decide, by decide⟩

/-- C6, amended.  When the FIRST processing column has no node-typed group to
its left or to its right, graph construction aborts as a whole, the
process-node mapping is left empty and no exception escapes (first conjunct);
when a later processing column fails, the mapping keeps what earlier columns
stored (see the counterexample).  Entity-node construction on the same file is
unaffected and still succeeds (second conjunct). -/
theorem c6_missing_neighbor :
    (∀ (headerRow : List String) (rows : List (List String))
       (hgroups : List (List Nat)) (p : Nat) (rest : List Nat),
      collapse_header (swap_synonyms headerRow) = some hgroups →
      processing_indices_of
        (characterize_header (swap_synonyms headerRow) hgroups) = p :: rest →
      (find_lt (node_indices_of
          (characterize_header (swap_synonyms headerRow) hgroups)) p = none ∨
       find_gt (node_indices_of
          (characterize_header (swap_synonyms headerRow) hgroups)) p = none) →
      get_process_nodes headerRow rows = some []) ∧
    parse_study ["Protocol REF", "Sample Name"] [["P1", "S1"]] study_anchors =
      some [(some "sample-S1",
        ⟨"S1", "Sample Name",
         [("Sample Name", [MetaValue.str "S1"]),
          ("Protocol REF", [MetaValue.attrs ["Protocol_REF"] ["P1"]])]⟩)] := by
  constructor
  · intro headerRow rows hgroups p rest hc hp hn
    unfold get_process_nodes
    simp only [hc, Option.map_some', Option.some.injEq]
    show scan_columns (swap_synonyms headerRow) hgroups
      (node_indices_of (characterize_header (swap_synonyms headerRow) hgroups))
      (processing_indices_of (characterize_header (swap_synonyms headerRow) hgroups))
      rows [] = []
    rw [hp]
    rcases hn with hn | hn
    · simp [scan_columns, hn]
    · cases hfl : find_lt (node_indices_of
        (characterize_header (swap_synonyms headerRow) hgroups)) p with
      | none => simp [scan_columns, hfl]
      | some ii => simp [scan_columns, hfl, hn]
  · decide

/-- Witness for `c6_missing_neighbor`: a file whose single processing column
is the leftmost column yields an empty process-node mapping, no exception. -/
theorem c6_missing_neighbor_witness :
    get_process_nodes ["Protocol REF", "Sample Name"] [["P1", "S1"]] = some [] :=
  c6_missing_neighbor.1 ["Protocol REF", "Sample Name"] [["P1", "S1"]]
    [[0], [1]] 0 [] (by decide) (by decide) (Or.inl (by decide))

/-- C7, counterexample.  Grouping does not totally succeed on every header
row: when the very first column already carries a qualifier prefix there is no
open group to append to, and the source raises `IndexError` (modelled `none`). -/
theorem c7_counterexample : collapse_header ["Unit"] = none := by decide

/-- Models `out[-1].append(i)` succeeds on a non-empty group list, extends the
flattened index sequence by `[i]`, and keeps all groups non-empty. -/
theorem append_to_last_spec :
    ∀ (out : List (List Nat)) (i : Nat), out ≠ [] →
      ∃ out2, append_to_last out i = some out2 ∧
        out2.flatten = out.flatten ++ [i] ∧ out2 ≠ [] ∧
        ((∀ g ∈ out, g ≠ []) → ∀ g ∈ out2, g ≠ []) := by
  intro out
  induction out with
  | nil => intro i h; exact absurd rfl h
  | cons g rest ih =>
    intro i _
    cases rest with
    | nil =>
      refine ⟨[g ++ [i]], rfl, by simp, by simp, ?_⟩
      intro _ g' hg'
      simp at hg'
      subst hg'
      simp
    | cons g' rest' =>
      obtain ⟨out2, h1, h2, h3, h4⟩ := ih i (by simp)
      refine ⟨g :: out2, ?_, ?_, by simp, ?_⟩
      · simp [append_to_last, h1]
      · simp [h2, List.append_assoc]
      · intro hall g'' hg''
        rcases List.mem_cons.mp hg'' with rfl | hm
        · exact hall g'' (List.mem_cons_self _ _)
        · exact h4 (fun x hx => hall x (List.mem_cons_of_mem _ hx)) g'' hm

/-- The grouping loop, run from a non-empty group list, succeeds and appends
exactly the indices `i, i+1, ...` of the remaining columns to the flattened
sequence, keeping every group non-empty. -/
theorem collapse_go_spec :
    ∀ (rest : List String) (i : Nat) (out : List (List Nat)), out ≠ [] →
      ∃ gs, collapse_go i rest out = some gs ∧
        gs.flatten = out.flatten ++ List.range' i rest.length ∧
        ((∀ g ∈ out, g ≠ []) → ∀ g ∈ gs, g ≠ []) := by
  intro rest
  induction rest with
  | nil =>
    intro i out _
    exact ⟨out, rfl, by simp, fun h => h⟩
  | cons hd tl ih =>
    intro i out hout
    by_cases hq : startswith_any hd col_quals
    · obtain ⟨out2, ha1, ha2, ha3, ha4⟩ := append_to_last_spec out i hout
      obtain ⟨gs, hg1, hg2, hg3⟩ := ih (i + 1) out2 ha3
      refine ⟨gs, ?_, ?_, ?_⟩
      · simp [collapse_go, hq, ha1, hg1]
      · rw [hg2, ha2]
        simp [List.range'_succ, List.append_assoc]
      · intro hall
        exact hg3 (ha4 hall)
    · obtain ⟨gs, hg1, hg2, hg3⟩ := ih (i + 1) (out ++ [[i]]) (by simp)
      refine ⟨gs, ?_, ?_, ?_⟩
      · simp [collapse_go, hq, hg1]
      · rw [hg2]
        simp [List.range'_succ, List.append_assoc]
      · intro hall
        refine hg3 ?_
        intro g hg
        rcases List.mem_append.mp hg with h | h
        · exact hall g h
        · simp at h; subst h; simp

/-- C7, amended.  For every header row whose FIRST column does not carry a
qualifier prefix (and for the empty row), grouping totally succeeds: qualifier
columns are appended to the most recently opened group, any other column opens
a new group of just itself, and the resulting groups are non-empty and cover
every column index exactly once in left-to-right order.  When the first column
is qualifier-prefixed, grouping instead fails with an exception
(`c7_counterexample`). -/
theorem c7_grouping :
    ∀ header : List String,
      startswith_any (header.headD "") col_quals = false →
      ∃ gs, collapse_header header = some gs ∧
        gs.flatten = List.range header.length ∧
        ∀ g ∈ gs, g ≠ [] := by
  intro header hh
  cases header with
  | nil => exact ⟨[], rfl, by simp, by simp⟩
  | cons h t =>
    have hq : startswith_any h col_quals = false := hh
    obtain ⟨gs, h1, h2, h3⟩ := collapse_go_spec t 1 [[0]] (by simp)
    refine ⟨gs, ?_, ?_, ?_⟩
    · simp only [collapse_header, collapse_go, hq, Bool.false_eq_true, if_false]
      simpa using h1
    · rw [h2]
      simp [List.range_eq_range', List.range'_succ]
    · exact h3 (by simp)

/-- Witness for `c7_grouping`: the qualifier column `Unit` folds into the
`Sample Name` group and the partition covers all three columns. -/
theorem c7_grouping_witness :
    ∃ gs, collapse_header ["Sample Name", "Unit", "Protocol REF"] = some gs ∧
      gs.flatten = List.range 3 ∧ ∀ g ∈ gs, g ≠ [] :=
  c7_grouping ["Sample Name", "Unit", "Protocol REF"] (by decide)

/-! ### The stall guard (C8) and the stream-exhaustion behaviour (C10) -/

/-- The invariant that keeps the stall guard inert: `max_number` never exceeds
`line_number`, because each process node's input/output list grows by at most
one element per handled row while `line_number` counts every handled
(non-blank) row. -/
def StallInv (st : ProcState) : Prop :=
  st.maxNumber ≤ st.lineNumber ∧
  ∀ kv ∈ st.processNodes,
    (kv : String × ProcessNode).2.inputs.length ≤ st.lineNumber ∧
    kv.2.outputs.length ≤ st.lineNumber

theorem grow_node_le (nd : ProcessNode) (i o : Option String) :
    (grow_node nd i o).inputs.length ≤ nd.inputs.length + 1 ∧
    (grow_node nd i o).outputs.length ≤ nd.outputs.length + 1 := by
  simp only [grow_node]
  split <;> split <;> simp [List.length_append]

theorem pick_node_le {s : PlainState} {n t : String} {L : Nat}
    (hs : ∀ kv ∈ s.processNodes,
      (kv : String × ProcessNode).2.inputs.length ≤ L ∧ kv.2.outputs.length ≤ L) :
    (pick_node s n t).1.inputs.length ≤ L ∧ (pick_node s n t).1.outputs.length ≤ L := by
  unfold pick_node
  cases hl : lookupA s.processNodes n with
  | some pn => exact hs (n, pn) (lookupA_mem hl)
  | none => simp

theorem proc_core_none {cfg : ColCfg} {s : PlainState} {line : List String}
    {s' : PlainState} (h : proc_core cfg s line = (s', none)) : s' = s := by
  simp only [proc_core] at h
  split at h
  · simp at h
    exact h.symm
  · simp at h

theorem proc_core_some_spec {cfg : ColCfg} {s : PlainState} {line : List String}
    {s' : PlainState} {nd : ProcessNode} {L : Nat}
    (h : proc_core cfg s line = (s', some nd))
    (hs : ∀ kv ∈ s.processNodes,
      (kv : String × ProcessNode).2.inputs.length ≤ L ∧ kv.2.outputs.length ≤ L) :
    (nd.inputs.length ≤ L + 1 ∧ nd.outputs.length ≤ L + 1) ∧
    (∀ kv ∈ s'.processNodes,
      (kv : String × ProcessNode).2 = nd ∨ kv ∈ s.processNodes) := by
  simp only [proc_core] at h
  split at h
  · simp at h
  · simp only [Prod.mk.injEq, Option.some.injEq] at h
    obtain ⟨hs', hnd⟩ := h
    subst hnd
    constructor
    · exact ⟨le_trans (grow_node_le _ _ _).1 (Nat.succ_le_succ (pick_node_le hs).1),
             le_trans (grow_node_le _ _ _).2 (Nat.succ_le_succ (pick_node_le hs).2)⟩
    · intro kv hkv
      rw [← hs'] at hkv
      rcases updA_mem hkv with h' | h'
      · left; simp [h']
      · right; exact h'

theorem proc_step_toPlain {cfg : ColCfg} {st : ProcState} {line : List String}
    (hInv : StallInv st) :
    (proc_step cfg st line).toPlain = plain_step cfg st.toPlain line ∧
    StallInv (proc_step cfg st line) := by
  have hg : st.maxNumber ≤ st.lineNumber := hInv.1
  cases hc : proc_core cfg st.toPlain line with
  | mk s' t =>
    cases t with
    | none =>
      have hse : s' = st.toPlain := proc_core_none hc
      have hstep : proc_step cfg st line = st := by
        unfold proc_step
        rw [if_pos hg, hc]
      constructor
      · rw [hstep]
        unfold plain_step
        rw [hc]
        exact hse.symm
      · rw [hstep]
        exact hInv
    | some nd =>
      have hstep : proc_step cfg st line =
          ⟨s'.processNodes, s'.inputMap, s'.outputMap, s'.processNumber,
           st.lineNumber + 1, max nd.inputs.length nd.outputs.length⟩ := by
        unfold proc_step
        rw [if_pos hg, hc]
      obtain ⟨hb, hmem⟩ := proc_core_some_spec hc hInv.2
      constructor
      · rw [hstep]
        unfold plain_step
        rw [hc]
        rfl
      · rw [hstep]
        refine ⟨max_le hb.1 hb.2, ?_⟩
        intro kv hkv
        rcases hmem kv hkv with h' | h'
        · rw [h']
          exact hb
        · have hkv2 := hInv.2 kv h'
          exact ⟨le_trans hkv2.1 (Nat.le_succ _), le_trans hkv2.2 (Nat.le_succ _)⟩

theorem scan_rows_toPlain (cfg : ColCfg) :
    ∀ (rows : List (List String)) (st : ProcState), StallInv st →
      (scan_rows cfg rows st).toPlain = scan_rows_plain cfg rows st.toPlain ∧
      StallInv (scan_rows cfg rows st) := by
  intro rows
  induction rows with
  | nil => intro st h; exact ⟨rfl, h⟩
  | cons r t ih =>
    intro st h
    obtain ⟨h1, h2⟩ := @proc_step_toPlain cfg st r h
    obtain ⟨h3, h4⟩ := ih (proc_step cfg st r) h2
    constructor
    · show (scan_rows cfg t (proc_step cfg st r)).toPlain =
        scan_rows_plain cfg t (plain_step cfg st.toPlain r)
      rw [← h1]
      exact h3
    · exact h4

theorem scan_columns_nil_rows (headers : List String) (hgroups : List (List Nat))
    (nis : List Nat) :
    ∀ (pis : List Nat) (acc : List (String × ProcessNode)),
      scan_columns headers hgroups nis pis [] acc = acc := by
  intro pis
  induction pis with
  | nil => intro acc; rfl
  | cons p rest ih =>
    intro acc
    simp only [scan_columns]
    cases hfl : find_lt nis p with
    | none => rfl
    | some ii =>
      cases hfg : find_gt nis p with
      | none => rfl
      | some oi => exact ih acc

theorem scan_columns_plain_nil_rows (headers : List String)
    (hgroups : List (List Nat)) (nis : List Nat) :
    ∀ (pis : List Nat) (acc : List (String × ProcessNode)),
      scan_columns_plain headers hgroups nis pis [] acc = acc := by
  intro pis
  induction pis with
  | nil => intro acc; rfl
  | cons p rest ih =>
    intro acc
    simp only [scan_columns_plain]
    cases hfl : find_lt nis p with
    | none => rfl
    | some ii =>
      cases hfg : find_gt nis p with
      | none => rfl
      | some oi => exact ih acc

theorem scan_columns_eq (headers : List String) (hgroups : List (List Nat))
    (nis : List Nat) :
    ∀ (pis : List Nat) (rows : List (List String)),
      scan_columns headers hgroups nis pis rows [] =
        scan_columns_plain headers hgroups nis pis rows [] := by
  intro pis rows
  cases pis with
  | nil => rfl
  | cons p rest =>
    simp only [scan_columns, scan_columns_plain]
    cases hfl : find_lt nis p with
    | none => rfl
    | some ii =>
      cases hfg : find_gt nis p with
      | none => rfl
      | some oi =>
        have key := (scan_rows_toPlain
          { input_header := headers.getD (rep_col hgroups ii) ""
            output_header := headers.getD (rep_col hgroups oi) ""
            processing_header := headers.getD (rep_col hgroups p) ""
            input_col := rep_col hgroups ii
            output_col := rep_col hgroups oi
            processing_col := rep_col hgroups p }
          rows (init_state [])
          ⟨Nat.le_refl 0, by intro kv hkv; simp [init_state] at hkv⟩).1
        exact (scan_columns_nil_rows headers hgroups nis rest _).trans
          ((congrArg PlainState.processNodes key).trans
            (scan_columns_plain_nil_rows headers hgroups nis rest _).symm)

/-- C8.  The stall guard is inert: on every input of the normal form (one
header row followed by the data rows), `_get_process_nodes` with the
`line_number`/`max_number` guard produces exactly the same process-node
mapping as the plain variant that processes every data row once in order. -/
theorem c8_stall_guard_equiv :
    ∀ (headerRow : List String) (rows : List (List String)),
      get_process_nodes headerRow rows = get_process_nodes_plain headerRow rows := by
  intro headerRow rows
  unfold get_process_nodes get_process_nodes_plain
  cases hc : collapse_header (swap_synonyms headerRow) with
  | none => simp [hc]
  | some gs =>
    simp only [hc, Option.map_some', Option.some.injEq]
    exact scan_columns_eq _ _ _ _ rows

/-- C10.  The CSV reader is consumed by the first processing column's row
loop and never reset: a column scan over the exhausted stream adds nothing
(second conjunct), so with two or more processing columns only the first one
contributes (first conjunct, stated for the shared accumulator dict); the
concrete file with two processing columns shows only the first column's node
in the result (third conjunct). -/
theorem c10_first_processing_only :
    (∀ (headers : List String) (hgroups : List (List Nat)) (nis : List Nat)
       (p : Nat) (rest : List Nat) (rows : List (List String))
       (acc : List (String × ProcessNode)),
      scan_columns headers hgroups nis (p :: rest) rows acc =
        scan_columns headers hgroups nis [p] rows acc) ∧
    (∀ (headers : List String) (hgroups : List (List Nat)) (nis : List Nat)
       (pis : List Nat) (acc : List (String × ProcessNode)),
      scan_columns headers hgroups nis pis [] acc = acc) ∧
    get_process_nodes
      ["Sample Name", "Protocol REF", "Raw Data File", "Protocol REF",
       "Derived Data File"]
      [["S1", "P1", "D1", "Q1", "E1"]] =
      some [("P11", ⟨"P11", "Protocol REF",
        [some "sample-S1"], [some "rawdatafile-D1"]⟩)] := by
  refine ⟨?_, scan_columns_nil_rows, by decide⟩
  intro headers hgroups nis p rest rows acc
  simp only [scan_columns]
  cases hfl : find_lt nis p with
  | none => rfl
  | some ii =>
    cases hfg : find_gt nis p with
    | none => rfl
    | some oi => exact scan_columns_nil_rows headers hgroups nis rest _
